import Mathlib

/-!
# Verification of `rarest_emblem.py`

A shallow embedding, in Lean 4, of the decision logic of the
`rarest_emblem.py` script: the on-disk byte cache, the OAuth callback
handler and token-exchange check, membership selection, ownership
resolution of emblem collectibles against the two manifest catalogs,
the light.gg rarity extraction, and the final rarity sort.

Network and filesystem effects are modelled by explicit parameters
(the cache as an association list of key/bytes pairs, a fetch result as
an `Except`, the HTML-to-text extraction of BeautifulSoup as a function
parameter).  Python integers are `Int`/`Nat`; Python dicts keyed by
stringified hashes are functions `Nat → Option _`; Python sets are
`Finset`.  The float percentages scraped from HTML are represented
exactly as rationals.
-/

namespace RarestEmblem

/-- Cached byte payloads (`bytes` in Python) as lists of byte values. -/
abbrev Bytes := List Nat

/-- The on-disk cache directory as a key → bytes store: newest entry first,
mirroring that a later `cache_put` to the same path overwrites the file. -/
abbrev Cache := List (String × Bytes)

/-- `cache_get(path)`: read the file under `CACHE_DIR` if it exists, else
`None` (source lines 32–37). -/
def cache_get (c : Cache) (path : String) : Option Bytes :=
  (c.find? (fun p => p.1 == path)).map (fun p => p.2)

/-- `cache_put(path, data)`: (over)write the file under `CACHE_DIR`
(source lines 39–42). -/
def cache_put (c : Cache) (path : String) (data : Bytes) : Cache :=
  (path, data) :: c

/-- `is_unlocked(state)` from `emblem_item_hashes_owned` (source lines
181–183): `(state & 1) == 0`.  The Python `&` operator on
arbitrary-precision signed integers is `Int.land` (twos complement). -/
def is_unlocked (state : Int) : Bool :=
  Int.land state 1 == 0

/-- A single collection-state record: the collectible hash (dict key,
`int(ch)`) together with its optional `state` field (`v.get("state", 0)`
defaults a missing state to `0`). -/
structure CollectibleRecord where
  hash : Nat
  state : Option Int
deriving DecidableEq

/-- The slice of the profile response that `emblem_item_hashes_owned`
reads: the account-scope collectibles block and one collectibles block
per character (source lines 187–196). -/
structure Profile where
  profileCollectibles : List CollectibleRecord
  characterCollectibles : List (List CollectibleRecord)
deriving DecidableEq

/-- One entry of `DestinyCollectibleDefinition`: the optional `itemHash`
field (`coll.get("itemHash")`). -/
structure CollectibleEntry where
  itemHash : Option Nat
deriving DecidableEq

/-- One entry of `DestinyInventoryItemDefinition`: the optional
`itemCategoryHashes` field; `item.get("itemCategoryHashes", []) or []`
reads it with `[]` for both a missing and a null/empty value. -/
structure ItemEntry where
  itemCategoryHashes : Option (List Nat)
deriving DecidableEq

/-- `EMBLEM_CATEGORY_HASH = 19` (source line 199). -/
def EMBLEM_CATEGORY_HASH : Nat := 19

/-- One scope of the first loop of `emblem_item_hashes_owned`: add to the accumulator
set the hash of every record whose (defaulted) state passes `is_unlocked`
(source lines 188–190 and 194–196). -/
def add_unlocked (s : Finset Nat) (recs : List CollectibleRecord) : Finset Nat :=
  recs.foldl (fun acc r => if is_unlocked (r.state.getD 0) then insert r.hash acc else acc) s

/-- `owned_collectible_hashes`: union of unlocked hashes over the
account-scope block and every character-scope block (source lines
185–196). -/
def owned_collectible_hashes (profile : Profile) : Finset Nat :=
  profile.characterCollectibles.foldl add_unlocked
    (add_unlocked ∅ profile.profileCollectibles)

/-- The body of the resolution loop of `emblem_item_hashes_owned` for a
single owned collectible hash (source lines 201–213): each `continue`
is a `∅` contribution, a surviving `item_hash` whose item carries
category 19 contributes the singleton. -/
def emblem_contribution (collectible_def : Nat → Option CollectibleEntry)
    (item_def : Nat → Option ItemEntry) (coll_hash : Nat) : Finset Nat :=
  match collectible_def coll_hash with
  | none => ∅
  | some coll =>
    match coll.itemHash with
    | none => ∅
    | some item_hash =>
      match item_def item_hash with
      | none => ∅
      | some item =>
        if EMBLEM_CATEGORY_HASH ∈ item.itemCategoryHashes.getD [] then {item_hash} else ∅

/-- `emblem_item_hashes_owned(profile, collectible_def, item_def)`
(source lines 179–214): the set of emblem item hashes owned by the
profile. -/
def emblem_item_hashes_owned (profile : Profile)
    (collectible_def : Nat → Option CollectibleEntry)
    (item_def : Nat → Option ItemEntry) : Finset Nat :=
  (owned_collectible_hashes profile).biUnion
    (emblem_contribution collectible_def item_def)

/-- A token-exchange response: the fields of the JSON object as key/value
pairs (values as strings; only key membership matters here). -/
abbrev TokenResponse := List (String × String)

/-- The decision tail of `get_oauth_tokens` (source lines 111–114): after
the form POST returns `tok`, abort with `SystemExit` when the
`access_token` key is absent, else hand `tok` back to the caller.  The
network and listener parts are effects; the exchange response is the
parameter. -/
def get_oauth_tokens (tok : TokenResponse) : Except String TokenResponse :=
  if tok.any (fun p => p.1 == "access_token") then Except.ok tok
  else Except.error "OAuth failed. Check client id/secret and redirect URL."

/-- One Destiny membership as read by `pick_primary_membership`:
`membershipId` compared after `str(...)`, plus the `membershipType`
carried along (source lines 136–146, 257–258). -/
structure DestinyMembership where
  membershipId : String
  membershipType : Nat
deriving DecidableEq

/-- The `GetMembershipsForCurrentUser` response slice that
`pick_primary_membership` reads: the `destinyMemberships` list and the
optional `primaryMembershipId` override. -/
structure MembershipsResponse where
  destinyMemberships : List DestinyMembership
  primaryMembershipId : Option String
deriving DecidableEq

/-- `pick_primary_membership(resp)` (source lines 136–146): abort when
the list is empty; else, when the override is truthy (present and
non-empty) return the first membership whose id equals it, falling back
to the first membership; else the first membership. -/
def pick_primary_membership (resp : MembershipsResponse) :
    Except String DestinyMembership :=
  match resp.destinyMemberships with
  | [] => Except.error "No Destiny memberships found on this account."
  | m0 :: rest =>
    match resp.primaryMembershipId with
    | some ov =>
      if ov ≠ "" then
        match (m0 :: rest).find? (fun m => m.membershipId == ov) with
        | some m => Except.ok m
        | none => Except.ok m0
      else Except.ok m0
    | none => Except.ok m0

/-- What one `do_GET` call of `OAuthCodeHandler` produces: the HTTP
status, the response body, and the value put into the one-shot queue
(if any). -/
structure HandlerResponse where
  status : Nat
  body : Option String
  queued : Option String
deriving DecidableEq

/-- `OAuthCodeHandler.do_GET` (source lines 66–79), on the parsed
request URL: `path` is `urlparse(self.path).path` and `query` the parsed
query pairs in order (`parse_qs` groups values per key in order, so
`params.get("code", [""])[0]` is the first value under the `code` key,
defaulting to the empty string). -/
def do_GET (path : String) (query : List (String × String)) : HandlerResponse :=
  if path != "/callback" then ⟨404, none, none⟩
  else
    let code := (((query.filter (fun p => p.1 == "code")).map (fun p => p.2)).headD "")
    ⟨200, some "You can close this tab now.",
      if code != "" then some code else none⟩

/-- One augmented output row (source lines 275–280). -/
structure Row where
  itemHash : Nat
  name : String
  community_rarity_percent : Option ℚ
  lightgg_url : Option String
deriving DecidableEq

/-- The sort key of source line 283:
`(r["community_rarity_percent"] is None, percent-or-9999.0)`. -/
def sort_key (r : Row) : Bool × ℚ :=
  (r.community_rarity_percent.isNone, r.community_rarity_percent.getD 9999)

/-- Lexicographic `<=` (as Python compares tuples) on the `(bool, float)` sort keys, as the
total order under which the stable sort of line 283 orders rows. -/
def row_le (a b : Row) : Bool :=
  decide ((sort_key a).1 < (sort_key b).1 ∨
    ((sort_key a).1 = (sort_key b).1 ∧ (sort_key a).2 ≤ (sort_key b).2))

/-- `rows.sort(key=...)` of source lines 282–283: the Python list sort is the
stable sort by the lexicographic order on keys. -/
def sort_rows (rows : List Row) : List Row :=
  rows.mergeSort row_le

/-- Does a character list match `\d+(\.\d+)?` exactly?  The digit run is
maximal (greedy `\d+`), then either nothing or a dot followed by a
non-empty digit run. -/
def num_shape (l : List Char) : Bool :=
  let ds := l.takeWhile Char.isDigit
  let rest := l.dropWhile Char.isDigit
  !ds.isEmpty &&
    (match rest with
     | [] => true
     | c :: frac => c == '.' && !frac.isEmpty && frac.all Char.isDigit)

/-- The longest suffix of `l` matching `num_shape` (scanning suffixes
from the left, i.e. longest first), if any. -/
def first_num_suffix : List Char → Option (List Char)
  | [] => none
  | c :: rest =>
    if num_shape (c :: rest) then some (c :: rest) else first_num_suffix rest

/-- Attempt of `RARITY_RE` at one occurrence of the label, given the
characters following `Community Rarity`: the lazy `[^%]*?` cannot cross
a `%`, so a match consumes the first `%` after the label and its group
is the longest `\d+(\.\d+)?`-shaped suffix of the stretch before it. -/
def rarity_group_after_label (l : List Char) : Option (List Char) :=
  let pre := l.takeWhile (fun c => c != '%')
  let rest := l.dropWhile (fun c => c != '%')
  if rest.isEmpty then none else first_num_suffix pre

/-- The literal `Community Rarity` that opens `RARITY_RE`
(source line 217). -/
def rarity_label : List Char := "Community Rarity".toList

/-- `re.search` for `RARITY_RE`: try every start position from the left;
a start can only match where the literal label is a prefix; return the
group of the leftmost successful match. -/
def rarity_search_from : List Char → Option (List Char)
  | [] => none
  | c :: rest =>
    if rarity_label.isPrefixOf (c :: rest) then
      match rarity_group_after_label ((c :: rest).drop rarity_label.length) with
      | some g => some g
      | none => rarity_search_from rest
    else rarity_search_from rest

/-- `RARITY_RE.search(s)` returning `m.group(1)` as a character list
(source line 217: `Community Rarity[^%]*?(\d+(?:\.\d+)?)%`). -/
def RARITY_RE_search (s : String) : Option (List Char) :=
  rarity_search_from s.toList

/-- Decimal value of a digit run. -/
def digits_val (l : List Char) : Nat :=
  l.foldl (fun acc c => 10 * acc + (c.toNat - 48)) 0

/-- `float(m.group(1))` on a `\d+(\.\d+)?`-shaped group, represented
exactly as a rational. -/
def float_of_group (l : List Char) : ℚ :=
  let ds := l.takeWhile Char.isDigit
  match l.dropWhile Char.isDigit with
  | [] => (digits_val ds : ℚ)
  | _ :: frac => (digits_val ds : ℚ) + (digits_val frac : ℚ) / (10 : ℚ) ^ frac.length

/-- The light.gg detail-page URL for an item (source line 226). -/
def lightgg_url (item_hash : Nat) : String :=
  "https://www.light.gg/db/items/" ++ toString item_hash ++ "/"

/-- The cache-miss branch of `fetch_lightgg_rarity` (source lines
226–242).  `fetch_result` stands for the guarded `get(url, ...)` call —
`Except.error` for any raised network exception — and `get_text` for
the BeautifulSoup visible-text extraction
(`soup.get_text(" ", strip=True)`).  The cache-hit branch (lines
221–224) returns the stored pair and is covered by the `Cache` model;
`cache_put` and the polite delay on success are effects that do not
change the returned value. -/
def fetch_lightgg_rarity (item_hash : Nat) (fetch_result : Except Unit String)
    (get_text : String → String) : Option ℚ × Option String :=
  match fetch_result with
  | Except.error _ => (none, none)
  | Except.ok html =>
    match RARITY_RE_search html with
    | some g => (some (float_of_group g), some (lightgg_url item_hash))
    | none =>
      match RARITY_RE_search (get_text html) with
      | some g => (some (float_of_group g), some (lightgg_url item_hash))
      | none => (none, none)

/-- The membership response exhibiting the truthiness gap of
`pick_primary_membership`: the override is present and equals the id of
the second membership, but that id is the empty string, which Python
treats as falsy. -/
def respEmptyOverride : MembershipsResponse :=
  ⟨[⟨"a", 1⟩, ⟨"", 2⟩], some ""⟩

/-- The augmented rows of the sorting example, with percents
`[5.0, None, 1.2, None, 3.3]` in insertion order. -/
def exampleRows : List Row :=
  [⟨1, "a", some 5.0, none⟩, ⟨2, "b", none, none⟩, ⟨3, "c", some 1.2, none⟩,
   ⟨4, "d", none, none⟩, ⟨5, "e", some 3.3, none⟩]

/-- The expected sorted order `[1.2, 3.3, 5.0, None, None]` of
`exampleRows`, the two unknown rows keeping their insertion order. -/
def exampleSortedRows : List Row :=
  [⟨3, "c", some 1.2, none⟩, ⟨5, "e", some 3.3, none⟩, ⟨1, "a", some 5.0, none⟩,
   ⟨2, "b", none, none⟩, ⟨4, "d", none, none⟩]

/-- An HTML page carrying a labeled rarity figure that the raw-HTML
regular expression matches directly. -/
def exampleHtmlStructured : String :=
  "<div>Community Rarity</div><b>Found by 3.4582% of players</b>"

/-- An HTML page on which the raw-HTML pass fails (the first percent
sign after the label is not preceded by a number), so only the
visible-text fallback can find the figure. -/
def exampleHtmlLazy : String :=
  "Community Rarity <span data-x=y%>3.4582%</span>"

/-- The visible text that the BeautifulSoup extraction produces for the
fallback example. -/
def exampleVisibleText : String := "Community Rarity 3.4582%"

/-! ## Helper lemmas -/

theorem ldiff_one_eq (m : Nat) : Nat.ldiff 1 m = if m % 2 = 0 then 1 else 0 := by
  apply Nat.eq_of_testBit_eq
  intro i
  rw [Nat.testBit_ldiff]
  cases i with
  | zero =>
    rcases Nat.mod_two_eq_zero_or_one m with h | h <;>
      simp [Nat.testBit_zero, h]
  | succ j =>
    rcases Nat.mod_two_eq_zero_or_one m with h | h <;>
      simp [Nat.testBit_succ, h, Nat.zero_testBit]

theorem land_one_eq_emod (v : Int) : Int.land v 1 = v % 2 := by
  cases v with
  | ofNat m =>
    show (↑(m &&& 1) : Int) = _
    rw [Nat.and_one_is_mod]
    simp only [Int.ofNat_eq_natCast]
    omega
  | negSucc m =>
    show (↑(Nat.ldiff 1 m) : Int) = _
    rw [ldiff_one_eq]
    rcases Nat.mod_two_eq_zero_or_one m with h | h <;>
      simp [h, Int.negSucc_eq] <;> omega

theorem is_unlocked_iff_emod (v : Int) : is_unlocked v = true ↔ v % 2 = 0 := by
  simp [is_unlocked, land_one_eq_emod]

/-! ## Claims -/

/-- C2: for every integer `stateBitmask` value `v`, the unlocked
predicate used by ownership resolution holds iff `(v & 1) == 0`, and all
bits other than bit 0 (i.e. everything except `v % 2`) have no effect on
the classification. -/
theorem claim_C2 (v w : Int) :
    (is_unlocked v = true ↔ Int.land v 1 = 0) ∧
    (v % 2 = w % 2 → is_unlocked v = is_unlocked w) := by
  refine ⟨by simp [is_unlocked], fun h => ?_⟩
  simp only [is_unlocked, land_one_eq_emod, h]

/-- C2 witness at `v = 4`, `w = 6` and `v = 2`, `w = 6`. -/
theorem claim_C2_witness :
    (is_unlocked 4 = true ↔ Int.land 4 1 = 0) ∧ is_unlocked 2 = is_unlocked 6 :=
  ⟨(claim_C2 4 6).1, (claim_C2 2 6).2 (by decide)⟩

/-- C8: cache round-trip — `cache_put` of a key and byte string followed
by `cache_get` of the same key returns those exact bytes, and
`cache_get` of a key that was never put returns `none`. -/
theorem claim_C8 (c : Cache) (key : String) (data : Bytes) :
    cache_get (cache_put c key data) key = some data ∧
    ((∀ d, (key, d) ∉ c) → cache_get c key = none) := by
  constructor
  · rw [cache_get, cache_put, List.find?_cons_of_pos _ (by simp)]
    rfl
  · intro hfresh
    rw [cache_get]
    cases hf : c.find? (fun p => p.1 == key) with
    | none => rfl
    | some q =>
      have hq : q.1 = key := by simpa using List.find?_some hf
      have hqmem : q ∈ c := List.mem_of_find?_eq_some hf
      have hqe : q = (key, q.2) := by rw [← hq]
      exact absurd (hqe ▸ hqmem) (hfresh q.2)

/-- C8 witness: round-trip of `[1, 2]` under key `k` on the empty cache,
and a get on the empty cache. -/
theorem claim_C8_witness :
    cache_get (cache_put [] "k" [1, 2]) "k" = some [1, 2] ∧
    cache_get [] "k" = none :=
  ⟨(claim_C8 [] "k" [1, 2]).1, (claim_C8 [] "k" [1, 2]).2 (by simp)⟩

/-- C6: `get_oauth_tokens` aborts with the auth failure iff the exchange
response lacks an `access_token` field; when the field is present the
token object itself is returned. -/
theorem claim_C6 (tok : TokenResponse) :
    ((∃ e, get_oauth_tokens tok = Except.error e) ↔ ∀ p ∈ tok, p.1 ≠ "access_token") ∧
    ((∃ v, ("access_token", v) ∈ tok) → get_oauth_tokens tok = Except.ok tok) := by
  constructor
  · constructor
    · rintro ⟨e, he⟩ p hp hkey
      have hany : tok.any (fun p => p.1 == "access_token") = true :=
        List.any_eq_true.2 ⟨p, hp, by simp [hkey]⟩
      rw [get_oauth_tokens, if_pos hany] at he
      cases he
    · intro hall
      have hany : tok.any (fun p => p.1 == "access_token") = false := by
        rw [List.any_eq_false]
        intro p hp
        simpa using hall p hp
      rw [get_oauth_tokens, hany]
      exact ⟨_, rfl⟩
  · rintro ⟨v, hv⟩
    have hany : tok.any (fun p => p.1 == "access_token") = true :=
      List.any_eq_true.2 ⟨("access_token", v), hv, by simp⟩
    rw [get_oauth_tokens, if_pos hany]

/-- C6 witness: a response carrying an `access_token` field is returned
unchanged. -/
theorem claim_C6_witness :
    get_oauth_tokens [("access_token", "t")] = Except.ok [("access_token", "t")] :=
  (claim_C6 [("access_token", "t")]).2 ⟨"t", by simp⟩

/-- C10: the callback handler queues a value iff the path is exactly
`/callback` and the first `code` query value is non-empty; a `/callback`
request always gets status 200 with the acknowledgement body, queueing
nothing when the code is missing or empty; any other path gets 404 and
delivers nothing. -/
theorem claim_C10 (path : String) (query : List (String × String)) :
    (path ≠ "/callback" → do_GET path query = ⟨404, none, none⟩) ∧
    (path = "/callback" →
      (do_GET path query).status = 200 ∧
      (do_GET path query).body = some "You can close this tab now." ∧
      ∀ code, ((do_GET path query).queued = some code ↔
        code ≠ "" ∧
          ∃ rest, (query.filter (fun p => p.1 == "code")).map (fun p => p.2) = code :: rest)) := by
  constructor
  · intro hne
    unfold do_GET
    rw [if_pos (by simpa using hne)]
  · intro heq
    subst heq
    have hred : do_GET "/callback" query =
        ⟨200, some "You can close this tab now.",
          if (((query.filter (fun p => p.1 == "code")).map (fun p => p.2)).headD "") != "" then
            some (((query.filter (fun p => p.1 == "code")).map (fun p => p.2)).headD "")
          else none⟩ := by
      unfold do_GET
      rw [if_neg (by simp)]
    refine ⟨by rw [hred], by rw [hred], fun code => ?_⟩
    rw [hred]
    simp only
    generalize (query.filter (fun p => p.1 == "code")).map (fun p => p.2) = vals
    cases vals with
    | nil => simp
    | cons v rest =>
      by_cases hv : v = ""
      · subst hv
        simp only [List.headD_cons, bne_self_eq_false, Bool.false_eq_true, if_false]
        constructor
        · rintro ⟨⟩
        · rintro ⟨hne, r2, hr2⟩
          exact absurd (List.cons.inj hr2).1.symm hne
      · simp only [List.headD_cons, if_pos (bne_iff_ne.2 hv), Option.some.injEq]
        constructor
        · rintro rfl
          exact ⟨hv, rest, rfl⟩
        · rintro ⟨hne, r2, hr2⟩
          exact (List.cons.inj hr2).1

/-- C10 witness: a miss path gets 404, and a `/callback` request with
code `abc` queues `abc`. -/
theorem claim_C10_witness :
    do_GET "/nope" [] = ⟨404, none, none⟩ ∧
    (do_GET "/callback" [("code", "abc")]).queued = some "abc" :=
  ⟨(claim_C10 "/nope" []).1 (by decide),
   (((claim_C10 "/callback" [("code", "abc")]).2 rfl).2.2 "abc").2
     ⟨by decide, [], by simp⟩⟩

/-- C7 counterexample: with the override present (`some ""`) and equal to
the id of a listed membership, `pick_primary_membership` does not return
a membership with that id — `if override:` is false for the empty
string, so the first membership is returned instead. -/
theorem claim_C7_counterexample :
    (⟨"", 2⟩ : DestinyMembership) ∈ respEmptyOverride.destinyMemberships ∧
    respEmptyOverride.primaryMembershipId = some "" ∧
    pick_primary_membership respEmptyOverride = Except.ok ⟨"a", 1⟩ ∧
    ¬ ∃ m : DestinyMembership,
        pick_primary_membership respEmptyOverride = Except.ok m ∧ m.membershipId = "" := by
  have hpick : pick_primary_membership respEmptyOverride = Except.ok ⟨"a", 1⟩ := by
    unfold pick_primary_membership respEmptyOverride
    simp
  refine ⟨by simp [respEmptyOverride], rfl, hpick, ?_⟩
  rintro ⟨m, hm, hid⟩
  rw [hpick] at hm
  cases hm
  exact absurd hid (by simp)

/-- C7 (amended): membership selection is deterministic — an empty list
aborts; a present and NON-EMPTY override equal to the id of some listed
membership selects a listed membership with that id; otherwise (override
absent, empty, or matching no listed id) the first membership is
returned. -/
theorem claim_C7 (resp : MembershipsResponse) :
    (resp.destinyMemberships = [] →
      ∃ e, pick_primary_membership resp = Except.error e) ∧
    (∀ ov, resp.primaryMembershipId = some ov → ov ≠ "" →
      (∃ m ∈ resp.destinyMemberships, m.membershipId = ov) →
      ∃ m, pick_primary_membership resp = Except.ok m ∧
        m ∈ resp.destinyMemberships ∧ m.membershipId = ov) ∧
    (∀ m0 rest, resp.destinyMemberships = m0 :: rest →
      (resp.primaryMembershipId = none ∨
        ∃ ov, resp.primaryMembershipId = some ov ∧
          (ov = "" ∨ ∀ m ∈ resp.destinyMemberships, m.membershipId ≠ ov)) →
      pick_primary_membership resp = Except.ok m0) := by
  obtain ⟨dms, pid⟩ := resp
  refine ⟨?_, ?_, ?_⟩
  · rintro rfl
    exact ⟨_, rfl⟩
  · rintro ov rfl hne ⟨m, hm, hid⟩
    cases dms with
    | nil => cases hm
    | cons m0 rest =>
      unfold pick_primary_membership
      simp only
      rw [if_pos hne]
      cases hf : (m0 :: rest).find? (fun m2 => m2.membershipId == ov) with
      | none =>
        exact absurd (by simpa using List.find?_eq_none.1 hf m hm) (by simp [hid])
      | some mf =>
        exact ⟨mf, rfl, List.mem_of_find?_eq_some hf, by simpa using List.find?_some hf⟩
  · rintro m0 rest rfl hcase
    rcases hcase with rfl | ⟨ov, rfl, hov⟩
    · rfl
    · unfold pick_primary_membership
      simp only
      rcases hov with rfl | hnomatch
      · rw [if_neg (by simp)]
      · by_cases hne : ov = ""
        · rw [if_neg (by simp [hne])]
        · rw [if_pos hne]
          rw [List.find?_eq_none.2 (fun m hm => by simpa using hnomatch m hm)]

/-- C7 witness: a two-element list with a non-empty matching override
selects the matching membership; an empty list aborts. -/
theorem claim_C7_witness :
    (∃ m, pick_primary_membership ⟨[⟨"a", 1⟩, ⟨"b", 2⟩], some "b"⟩ = Except.ok m ∧
      m ∈ (⟨[⟨"a", 1⟩, ⟨"b", 2⟩], some "b"⟩ : MembershipsResponse).destinyMemberships ∧
      m.membershipId = "b") ∧
    ∃ e, pick_primary_membership ⟨[], none⟩ = Except.error e :=
  ⟨(claim_C7 ⟨[⟨"a", 1⟩, ⟨"b", 2⟩], some "b"⟩).2.1 "b" rfl (by decide)
      ⟨⟨"b", 2⟩, by simp, rfl⟩,
    (claim_C7 ⟨[], none⟩).1 rfl⟩

theorem mem_add_unlocked (s : Finset Nat) (recs : List CollectibleRecord) (x : Nat) :
    x ∈ add_unlocked s recs ↔
      x ∈ s ∨ ∃ r ∈ recs, r.hash = x ∧ is_unlocked (r.state.getD 0) = true := by
  induction recs generalizing s with
  | nil => simp [add_unlocked]
  | cons r rs ih =>
    unfold add_unlocked at ih ⊢
    simp only [List.foldl_cons]
    rw [ih]
    by_cases h : is_unlocked (r.state.getD 0) = true
    · simp only [if_pos h, Finset.mem_insert, List.mem_cons]
      constructor
      · rintro ((rfl | hx) | ⟨r2, hr2, hh, hu⟩)
        · exact Or.inr ⟨r, Or.inl rfl, rfl, h⟩
        · exact Or.inl hx
        · exact Or.inr ⟨r2, Or.inr hr2, hh, hu⟩
      · rintro (hx | ⟨r2, (rfl | hr2), hh, hu⟩)
        · exact Or.inl (Or.inr hx)
        · exact Or.inl (Or.inl hh.symm)
        · exact Or.inr ⟨r2, hr2, hh, hu⟩
    · simp only [if_neg h, List.mem_cons]
      constructor
      · rintro (hx | ⟨r2, hr2, hh, hu⟩)
        · exact Or.inl hx
        · exact Or.inr ⟨r2, Or.inr hr2, hh, hu⟩
      · rintro (hx | ⟨r2, (rfl | hr2), hh, hu⟩)
        · exact Or.inl hx
        · exact absurd hu h
        · exact Or.inr ⟨r2, hr2, hh, hu⟩

theorem mem_foldl_add_unlocked (cc : List (List CollectibleRecord)) (s : Finset Nat)
    (x : Nat) :
    x ∈ cc.foldl add_unlocked s ↔
      x ∈ s ∨ ∃ cd ∈ cc, ∃ r ∈ cd, r.hash = x ∧ is_unlocked (r.state.getD 0) = true := by
  induction cc generalizing s with
  | nil => simp
  | cons cd cds ih =>
    simp only [List.foldl_cons, List.mem_cons]
    rw [ih, mem_add_unlocked]
    constructor
    · rintro ((hx | ⟨r, hr, hh, hu⟩) | ⟨cd2, hcd2, hrest⟩)
      · exact Or.inl hx
      · exact Or.inr ⟨cd, Or.inl rfl, r, hr, hh, hu⟩
      · exact Or.inr ⟨cd2, Or.inr hcd2, hrest⟩
    · rintro (hx | ⟨cd2, (rfl | hcd2), hrest⟩)
      · exact Or.inl (Or.inl hx)
      · exact Or.inl (Or.inr hrest)
      · exact Or.inr ⟨cd2, hcd2, hrest⟩

theorem mem_owned_collectible_hashes (p : Profile) (x : Nat) :
    x ∈ owned_collectible_hashes p ↔
      (∃ r ∈ p.profileCollectibles, r.hash = x ∧ is_unlocked (r.state.getD 0) = true) ∨
      (∃ cd ∈ p.characterCollectibles, ∃ r ∈ cd,
        r.hash = x ∧ is_unlocked (r.state.getD 0) = true) := by
  unfold owned_collectible_hashes
  rw [mem_foldl_add_unlocked, mem_add_unlocked]
  simp

theorem mem_emblem_item_hashes_owned (p : Profile)
    (cdef : Nat → Option CollectibleEntry) (idef : Nat → Option ItemEntry) (x : Nat) :
    x ∈ emblem_item_hashes_owned p cdef idef ↔
      ∃ ch : Nat,
        ((∃ r ∈ p.profileCollectibles,
            r.hash = ch ∧ is_unlocked (r.state.getD 0) = true) ∨
         (∃ cd ∈ p.characterCollectibles, ∃ r ∈ cd,
            r.hash = ch ∧ is_unlocked (r.state.getD 0) = true)) ∧
        ∃ ce, cdef ch = some ce ∧ ce.itemHash = some x ∧
          ∃ ie, idef x = some ie ∧ 19 ∈ ie.itemCategoryHashes.getD [] := by
  unfold emblem_item_hashes_owned
  rw [Finset.mem_biUnion]
  constructor
  · rintro ⟨ch, hch, hmem⟩
    refine ⟨ch, (mem_owned_collectible_hashes p ch).1 hch, ?_⟩
    unfold emblem_contribution at hmem
    cases hce : cdef ch with
    | none =>
      simp only [hce] at hmem
      exact absurd hmem (Finset.not_mem_empty x)
    | some ce =>
      simp only [hce] at hmem
      cases hih : ce.itemHash with
      | none =>
        simp only [hih] at hmem
        exact absurd hmem (Finset.not_mem_empty x)
      | some ih2 =>
        simp only [hih] at hmem
        cases hie : idef ih2 with
        | none =>
          simp only [hie] at hmem
          exact absurd hmem (Finset.not_mem_empty x)
        | some ie =>
          simp only [hie, EMBLEM_CATEGORY_HASH] at hmem
          by_cases hcat : 19 ∈ ie.itemCategoryHashes.getD []
          · rw [if_pos hcat] at hmem
            have hx : x = ih2 := by simpa using hmem
            subst hx
            exact ⟨ce, rfl, hih, ie, hie, hcat⟩
          · rw [if_neg hcat] at hmem
            exact absurd hmem (Finset.not_mem_empty x)
  · rintro ⟨ch, hun, ce, hce, hih, ie, hie, hcat⟩
    refine ⟨ch, (mem_owned_collectible_hashes p ch).2 hun, ?_⟩
    unfold emblem_contribution
    simp only [hce, hih, hie, EMBLEM_CATEGORY_HASH]
    rw [if_pos hcat]
    simp

/-- C1: membership in `emblem_item_hashes_owned` is exactly — via some
collectible hash unlocked (bit 0 clear) in the account-scope block or
some character-scope block, mapped by the collectible catalog to an
`itemHash` (absent entries or entries without an item skipped), present
in the item catalog, and carrying category 19 in its category set.  The
result is a `Finset`, so items reachable by several unlock paths appear
once, and an item without category 19 is never returned. -/
theorem claim_C1 (p : Profile) (cdef : Nat → Option CollectibleEntry)
    (idef : Nat → Option ItemEntry) (x : Nat) :
    x ∈ emblem_item_hashes_owned p cdef idef ↔
      ∃ ch : Nat,
        ((∃ r ∈ p.profileCollectibles,
            r.hash = ch ∧ is_unlocked (r.state.getD 0) = true) ∨
         (∃ cd ∈ p.characterCollectibles, ∃ r ∈ cd,
            r.hash = ch ∧ is_unlocked (r.state.getD 0) = true)) ∧
        ∃ ce, cdef ch = some ce ∧ ce.itemHash = some x ∧
          ∃ ie, idef x = some ie ∧ 19 ∈ ie.itemCategoryHashes.getD [] :=
  mem_emblem_item_hashes_owned p cdef idef x

/-- C5: a dead unlocked collection-state hash — one with no collectible
catalog entry, or whose entry maps no item, or whose mapped item is
absent from the item catalog — contributes nothing: adding such a record
to the profile leaves the result unchanged (the remaining hashes are
still processed; the embedding is total, so no error arises). -/
theorem claim_C5 (p : Profile) (cdef : Nat → Option CollectibleEntry)
    (idef : Nat → Option ItemEntry) (h : Nat) (st : Option Int)
    (hdead : cdef h = none ∨
      (∃ ce, cdef h = some ce ∧ ce.itemHash = none) ∨
      (∃ ce ih2, cdef h = some ce ∧ ce.itemHash = some ih2 ∧ idef ih2 = none)) :
    emblem_item_hashes_owned
        ⟨⟨h, st⟩ :: p.profileCollectibles, p.characterCollectibles⟩ cdef idef =
      emblem_item_hashes_owned p cdef idef := by
  ext x
  rw [mem_emblem_item_hashes_owned, mem_emblem_item_hashes_owned]
  constructor
  · rintro ⟨ch, hun, ce, hce, hih, ie, hie, hcat⟩
    refine ⟨ch, ?_, ce, hce, hih, ie, hie, hcat⟩
    rcases hun with ⟨r, hr, hh, hu⟩ | hchar
    · rcases List.mem_cons.1 hr with rfl | hr2
      · exfalso
        have hch : ch = h := hh.symm
        subst hch
        rcases hdead with hd | ⟨ce2, hce2, hih2⟩ | ⟨ce2, ih3, hce2, hih2, hie2⟩
        · rw [hce] at hd; cases hd
        · rw [hce] at hce2; cases hce2; rw [hih] at hih2; cases hih2
        · rw [hce] at hce2; cases hce2; rw [hih] at hih2; cases hih2
          rw [hie] at hie2; cases hie2
      · exact Or.inl ⟨r, hr2, hh, hu⟩
    · exact Or.inr hchar
  · rintro ⟨ch, hun, hrest⟩
    refine ⟨ch, ?_, hrest⟩
    rcases hun with ⟨r, hr, hh, hu⟩ | hchar
    · exact Or.inl ⟨r, List.mem_cons_of_mem _ hr, hh, hu⟩
    · exact Or.inr hchar

/-- C5 witness: adding an unlocked record for hash 7 to the empty
profile changes nothing when the collectible catalog is empty. -/
theorem claim_C5_witness :
    emblem_item_hashes_owned ⟨[⟨7, some 0⟩], []⟩ (fun _ => none) (fun _ => none) =
      emblem_item_hashes_owned ⟨[], []⟩ (fun _ => none) (fun _ => none) :=
  claim_C5 ⟨[], []⟩ (fun _ => none) (fun _ => none) 7 (some 0) (Or.inl rfl)

/-- C9: a collection-state record with a missing `state` field is read
as state 0, hence classified unlocked, and its hash is counted toward
ownership from the account-scope block as well as from any
character-scope block. -/
theorem claim_C9 (p : Profile) (h : Nat) :
    is_unlocked ((none : Option Int).getD 0) = true ∧
    ((⟨h, none⟩ : CollectibleRecord) ∈ p.profileCollectibles →
      h ∈ owned_collectible_hashes p) ∧
    (∀ cd ∈ p.characterCollectibles, (⟨h, none⟩ : CollectibleRecord) ∈ cd →
      h ∈ owned_collectible_hashes p) := by
  have hu : is_unlocked ((none : Option Int).getD 0) = true := by decide
  refine ⟨hu, ?_, ?_⟩
  · intro hmem
    exact (mem_owned_collectible_hashes p h).2
      (Or.inl ⟨⟨h, none⟩, hmem, rfl, hu⟩)
  · intro cd hcd hmem
    exact (mem_owned_collectible_hashes p h).2
      (Or.inr ⟨cd, hcd, ⟨h, none⟩, hmem, rfl, hu⟩)

/-- C9 witness: a stateless record for hash 3 in the account-scope block
puts 3 into the owned set. -/
theorem claim_C9_witness :
    is_unlocked ((none : Option Int).getD 0) = true ∧
    3 ∈ owned_collectible_hashes ⟨[⟨3, none⟩], []⟩ :=
  ⟨(claim_C9 ⟨[⟨3, none⟩], []⟩ 3).1,
   (claim_C9 ⟨[⟨3, none⟩], []⟩ 3).2.1 (by simp)⟩

theorem row_le_trans (a b c : Row) (hab : row_le a b = true) (hbc : row_le b c = true) :
    row_le a c = true := by
  rw [row_le, decide_eq_true_eq] at hab hbc ⊢
  rcases hab with h1 | ⟨h1, h1q⟩ <;> rcases hbc with h2 | ⟨h2, h2q⟩
  · exact Or.inl (lt_trans h1 h2)
  · exact Or.inl (by rw [← h2]; exact h1)
  · exact Or.inl (by rw [h1]; exact h2)
  · exact Or.inr ⟨h1.trans h2, le_trans h1q h2q⟩

theorem row_le_total (a b : Row) : (row_le a b || row_le b a) = true := by
  rw [Bool.or_eq_true, row_le, row_le, decide_eq_true_eq, decide_eq_true_eq]
  rcases lt_trichotomy (sort_key a).1 (sort_key b).1 with h | h | h
  · exact Or.inl (Or.inl h)
  · rcases le_total (sort_key a).2 (sort_key b).2 with hq | hq
    · exact Or.inl (Or.inr ⟨h, hq⟩)
    · exact Or.inr (Or.inr ⟨h.symm, hq⟩)
  · exact Or.inr (Or.inl h)

theorem row_le_spec (a b : Row) (h : row_le a b = true) :
    (a.community_rarity_percent.isNone = true → b.community_rarity_percent.isNone = true) ∧
    ∀ x y, a.community_rarity_percent = some x → b.community_rarity_percent = some y →
      x ≤ y := by
  rw [row_le, decide_eq_true_eq] at h
  constructor
  · intro ha
    rcases h with h1 | ⟨h1, _⟩
    · rw [Bool.lt_iff] at h1
      simpa [sort_key] using h1.2
    · simp only [sort_key] at h1
      rw [← h1]
      exact ha
  · intro x y hx hy
    rcases h with h1 | ⟨_, h2⟩
    · rw [Bool.lt_iff] at h1
      rw [sort_key, sort_key] at h1
      simp [hx, hy] at h1
    · simp only [sort_key, hx, hy, Option.getD_some] at h2
      exact h2

/-- C3: the sort of the augmented rows uses the stable lexicographic key
`(percentIsUnknown, percent)` ascending — the concrete percents
`[5.0, None, 1.2, None, 3.3]` come out as `[1.2, 3.3, 5.0, None, None]`;
in general the output is a permutation of the input (so the `9999.0`
placeholder never surfaces as a row value), every known-percent row
precedes every unknown row with known percents ascending, and the
unknown rows keep their relative insertion order. -/
theorem claim_C3 :
    sort_rows exampleRows = exampleSortedRows ∧
    ∀ rows : List Row,
      (sort_rows rows).Perm rows ∧
      (sort_rows rows).Pairwise (fun a b =>
        (a.community_rarity_percent.isNone = true →
          b.community_rarity_percent.isNone = true) ∧
        ∀ x y, a.community_rarity_percent = some x →
          b.community_rarity_percent = some y → x ≤ y) ∧
      (sort_rows rows).filter (fun r => r.community_rarity_percent.isNone) =
        rows.filter (fun r => r.community_rarity_percent.isNone) := by
  constructor
  · have e12 : (1.2 : ℚ) = mkRat 12 10 := by
      rw [← Rat.ofScientific_eq_ofScientific, Rat.ofScientific_true_def]
      norm_num
    have e33 : (3.3 : ℚ) = mkRat 33 10 := by
      rw [← Rat.ofScientific_eq_ofScientific, Rat.ofScientific_true_def]
      norm_num
    have e50 : (5.0 : ℚ) = mkRat 50 10 := by
      rw [← Rat.ofScientific_eq_ofScientific, Rat.ofScientific_true_def]
      norm_num
    simp only [exampleRows, exampleSortedRows, e12, e33, e50]
    simp +decide [sort_rows, List.mergeSort, row_le, sort_key, List.merge]
  · intro rows
    refine ⟨List.mergeSort_perm rows row_le, ?_, ?_⟩
    · exact (List.sorted_mergeSort row_le_trans row_le_total rows).imp
        (fun hab => row_le_spec _ _ hab)
    · have hpfilter : ∀ r ∈ rows.filter (fun r : Row => r.community_rarity_percent.isNone),
          r.community_rarity_percent.isNone = true := by
        intro r hr
        have h0 := List.of_mem_filter hr
        exact h0
      have hpair : (rows.filter (fun r : Row => r.community_rarity_percent.isNone)).Pairwise
          (fun a b => row_le a b = true) := by
        apply List.pairwise_of_forall_mem_list
        intro a ha b hb
        have hA := List.of_mem_filter ha
        have hB := List.of_mem_filter hb
        rw [Option.isNone_iff_eq_none] at hA hB
        rw [row_le, decide_eq_true_eq]
        exact Or.inr ⟨by simp [sort_key, hA, hB], by simp [sort_key, hA, hB]⟩
      have hsub : (rows.filter (fun r : Row => r.community_rarity_percent.isNone)).Sublist
          (sort_rows rows) :=
        List.sublist_mergeSort row_le_trans row_le_total hpair (List.filter_sublist rows)
      have hsub2 : (rows.filter (fun r : Row => r.community_rarity_percent.isNone)).Sublist
          ((sort_rows rows).filter (fun r : Row => r.community_rarity_percent.isNone)) := by
        have h2 := hsub.filter (fun r : Row => r.community_rarity_percent.isNone)
        rwa [List.filter_eq_self.2 hpfilter] at h2
      have hperm : (((sort_rows rows).filter
            (fun r : Row => r.community_rarity_percent.isNone))).Perm
          (rows.filter (fun r : Row => r.community_rarity_percent.isNone)) :=
        (List.mergeSort_perm rows row_le).filter _
      exact (hsub2.eq_of_length hperm.length_eq.symm).symm

theorem float_of_group_34582 :
    float_of_group ['3', '.', '4', '5', '8', '2'] = 3.4582 := by
  have h3 : List.takeWhile Char.isDigit ['3', '.', '4', '5', '8', '2'] = ['3'] := by decide
  have h4 : List.dropWhile Char.isDigit ['3', '.', '4', '5', '8', '2'] =
      ['.', '4', '5', '8', '2'] := by decide
  have h1 : digits_val ['3'] = 3 := by decide
  have h2 : digits_val ['4', '5', '8', '2'] = 4582 := by decide
  simp only [float_of_group, h3, h4, h1, h2, List.length_cons, List.length_nil]
  norm_num

theorem lightgg_url_42 : lightgg_url 42 = "https://www.light.gg/db/items/42/" := by
  decide

/-- C4: the cache-miss rarity fetch never raises — a network failure
yields `(none, none)`; on a fetched page the rarity pattern is applied
to the raw HTML first, then (only when that fails) to the extracted
visible text; both strategies return `3.4582` on a page labeled
`Community Rarity ... 3.4582%`; when neither matches, the result is
`(none, none)`. -/
theorem claim_C4 :
    (∀ (item_hash : Nat) (get_text : String → String),
      fetch_lightgg_rarity item_hash (Except.error ()) get_text = (none, none)) ∧
    fetch_lightgg_rarity 42 (Except.ok exampleHtmlStructured) id =
      (some 3.4582, some "https://www.light.gg/db/items/42/") ∧
    (RARITY_RE_search exampleHtmlLazy = none ∧
      fetch_lightgg_rarity 42 (Except.ok exampleHtmlLazy) (fun _ => exampleVisibleText) =
        (some 3.4582, some "https://www.light.gg/db/items/42/")) ∧
    ∀ (item_hash : Nat) (html : String) (get_text : String → String),
      RARITY_RE_search html = none → RARITY_RE_search (get_text html) = none →
      fetch_lightgg_rarity item_hash (Except.ok html) get_text = (none, none) := by
  refine ⟨fun _ _ => rfl, ?_, ⟨?_, ?_⟩, ?_⟩
  · have hs : RARITY_RE_search exampleHtmlStructured =
        some ['3', '.', '4', '5', '8', '2'] := by decide
    simp only [fetch_lightgg_rarity, hs, float_of_group_34582, lightgg_url_42]
  · decide
  · have hn : RARITY_RE_search exampleHtmlLazy = none := by decide
    have hv : RARITY_RE_search exampleVisibleText =
        some ['3', '.', '4', '5', '8', '2'] := by decide
    simp only [fetch_lightgg_rarity, hn, hv, float_of_group_34582, lightgg_url_42]
  · intro item_hash html get_text h1 h2
    simp only [fetch_lightgg_rarity, h1, h2]

/-- C4 witness: a fetched page with no rarity figure anywhere degrades
to `(none, none)`. -/
theorem claim_C4_witness :
    fetch_lightgg_rarity 7 (Except.ok "nothing here") id = (none, none) :=
  claim_C4.2.2.2 7 "nothing here" id (by decide) (by decide)

end RarestEmblem
